import Mathlib

/-!
Verification of the bleedthrough-correction core of `synbio-flowtools`
(`cytoflow/operations/bleedthrough_linear.py`, class `BleedthroughLinearOp`).

The embedding models:
  * the spillover table `spillover : Dict(Tuple(Str, Str), Float)` as an ordered
    association list over ℚ (Python dicts preserve insertion order; an existing
    key keeps its position when overwritten);
  * the experiment (a pandas `DataFrame` plus a per-channel metadata dict) as a
    column-keyed association list of event columns plus a metadata association
    list.  The `Experiment` class itself is not part of the reviewed sources, so
    its behaviour (per-channel metadata records, `clone` producing an
    independent copy) is modelled from the spec;
  * Python exceptions as an `Except` result: `CytoflowOpError` (the spec's
    `ConfigurationError`), `KeyError` from a dict subscript, and numpy's
    `TypeError` from `polyfit` on an empty vector;
  * floats as exact rationals, so every value is finite by construction.

`list(set(...))` in the source enumerates the channel set in an unspecified
order; the embedding fixes the canonical order produced by `List.dedup` of the
keys' first components.  All verified statements are insensitive to this
choice (the matrix and the selected data columns are indexed by the same
enumeration, exactly as in the source).
-/

namespace FlowTools

/- Batteries marks the rational-number operations `@[irreducible]` for
performance of elaboration; restore the default reducibility so that concrete
runs of the embedded operations can be evaluated inside proofs. -/
set_option allowUnsafeReducibility true in
attribute [semireducible] Rat.add Rat.mul Rat.sub Rat.inv Rat.div

abbrev Chan := String
abbrev SpKey := Chan × Chan
abbrev Spillover := List (SpKey × ℚ)

/-- A value stored in a per-channel metadata record: either a scalar (such as
`af_median`) or a channel-indexed table (such as `linear_bleedthrough`). -/
inductive MetaVal
  | num (q : ℚ)
  | table (t : List (Chan × ℚ))
deriving DecidableEq, Repr

abbrev ChanMeta := List (String × MetaVal)

/-- Modelled from the spec: the `Experiment` class is not among the reviewed
sources.  A Dataset is a table of numeric columns (one per channel, one row per
event) plus a per-channel metadata record. -/
structure Experiment where
  data : List (Chan × List ℚ)
  metadata : List (Chan × ChanMeta)
deriving DecidableEq, Repr

/-- The Python exceptions reachable from `estimate`/`apply`. -/
inductive PyError
  | cytoflowOpError (msg : String)
  | keyError (k : SpKey)
  | typeErrorPolyfitEmpty
deriving DecidableEq, Repr

deriving instance DecidableEq for Except

/-! ### Association-list primitives (Python `dict` semantics) -/

/-- First-match lookup in an association list. -/
def alookup [DecidableEq α] (k : α) : List (α × β) → Option β
  | [] => none
  | p :: l => if p.1 = k then some p.2 else alookup k l

def alookupD [DecidableEq α] (l : List (α × β)) (k : α) (d : β) : β :=
  (alookup k l).getD d

/-- `d[k] = v` on a Python dict: an existing key keeps its position, a new key
is appended. -/
def dictSet [DecidableEq α] (l : List (α × β)) (k : α) (v : β) : List (α × β) :=
  if (alookup k l).isSome then l.map (fun p => if p.1 = k then (k, v) else p)
  else l ++ [(k, v)]

/-! ### List-matrix primitives (the numpy calls used by `apply`) -/

def dotL (xs ys : List ℚ) : ℚ := (List.zipWith (fun a b => a * b) xs ys).sum

/-- Column `j` of a list-of-rows matrix. -/
def colL (A : List (List ℚ)) (j : Nat) : List ℚ := A.map (fun r => r.getD j 0)

/-- Matrix product of list-of-rows matrices (`np.dot`). -/
def mm (A B : List (List ℚ)) : List (List ℚ) :=
  A.map (fun row => (List.range (B.headD []).length).map (fun j => dotL row (colL B j)))

/-- The `n × n` identity matrix as a list of rows. -/
def idL (n : Nat) : List (List ℚ) :=
  (List.range n).map (fun i => (List.range n).map (fun j => if i = j then (1 : ℚ) else 0))

def IsSquare (n : Nat) (A : List (List ℚ)) : Prop :=
  A.length = n ∧ ∀ r ∈ A, r.length = n

instance (n : Nat) (A : List (List ℚ)) : Decidable (IsSquare n A) := by
  unfold IsSquare; infer_instance

/-- Transpose of an `n`-column matrix. -/
def trL (n : Nat) (A : List (List ℚ)) : List (List ℚ) := (List.range n).map (fun j => colL A j)

/-- The four Moore–Penrose equations over the list-matrix embedding: this is
the characterization of the (unique) value `np.linalg.pinv` returns on an
`n × n` matrix in exact arithmetic. -/
def IsMoorePenrose (n : Nat) (M P : List (List ℚ)) : Prop :=
  IsSquare n P ∧ mm (mm M P) M = M ∧ mm (mm P M) P = P ∧
    trL n (mm M P) = mm M P ∧ trL n (mm P M) = mm P M

instance (n : Nat) (M P : List (List ℚ)) : Decidable (IsMoorePenrose n M P) := by
  unfold IsMoorePenrose; infer_instance

/-- Cofactor expansion along the first row, structurally recursive in a fuel
argument (the row count) so that it evaluates by reduction. -/
def detAux : Nat → List (List ℚ) → ℚ
  | _, [] => 1
  | 0, _ :: _ => 1
  | fuel + 1, r :: rs =>
    ((List.range r.length).map (fun j =>
      (if j % 2 = 0 then (1 : ℚ) else -1) * r.getD j 0 *
        detAux fuel (rs.map (fun row => row.eraseIdx j)))).sum

/-- Determinant of a list-of-rows matrix (used only to state singularity of a
mixing matrix). -/
def detL (A : List (List ℚ)) : ℚ := detAux A.length A

/-! ### `BleedthroughLinearOp.apply` -/

def hasCol (exp : Experiment) (c : Chan) : Bool := (alookup c exp.data).isSome

def colOfExp (exp : Experiment) (c : Chan) : List ℚ := alookupD exp.data c []

/-- The validation loop of `apply`: for each `(from_channel, to_channel)` key
of the table in order, check that both channels are experiment columns and that
the mirrored key is present; the first violation produces the
`CytoflowOpError` message. -/
def checkKeys (exp : Experiment) (sp : Spillover) : List (SpKey × ℚ) → Option String
  | [] => none
  | p :: rest =>
    if ¬ hasCol exp p.1.1 then
      some ("Can't find channel " ++ p.1.1 ++ " in experiment")
    else if ¬ hasCol exp p.1.2 then
      some ("Can't find channel " ++ p.1.2 ++ " in experiment")
    else if (alookup (p.1.2, p.1.1) sp).isNone then
      some "Must have both (from, to) and (to, from) keys in self.spillover"
    else checkKeys exp sp rest

/-- `channels = list(set([x for (x, _) in self.spillover.keys()]))`, with the
unspecified set order fixed to the `List.dedup` order of the first components. -/
def channelsOf (sp : Spillover) : List Chan := (sp.map (fun p => p.1.1)).dedup

/-- Entry `(y, x)` of the mixing matrix:
`self.spillover[(y, x)] if x != y else 1.0`.  Only used after
`firstMissingPair` has verified all off-diagonal keys, so the `0` default is
never observable. -/
def mixingEntry (sp : Spillover) (y x : Chan) : ℚ :=
  if x = y then 1 else alookupD sp (y, x) 0

/-- The mixing matrix `a` built by `apply`:
`a = [[self.spillover[(y, x)] if x != y else 1.0 for x in channels] for y in channels]`,
i.e. row `y`, column `x` holds `spillover[(y, x)]` off the diagonal. -/
def mixingMatrix (sp : Spillover) (chans : List Chan) : List (List ℚ) :=
  chans.map (fun y => chans.map (fun x => mixingEntry sp y x))

/-- The first off-diagonal pair of channels (row-major) whose key is absent
from the table: building the nested list comprehension raises `KeyError` there. -/
def firstMissingPair (sp : Spillover) (chans : List Chan) : Option SpKey :=
  chans.findSome? (fun y => chans.findSome? (fun x =>
    if x ≠ y ∧ (alookup (y, x) sp).isNone then some (y, x) else none))

/-- Row `r` of `experiment.data[channels]` (the selected columns). -/
def rowVec (cols : List (List ℚ)) (r : Nat) : List ℚ := cols.map (fun c => c.getD r 0)

/-- Column `j` of `np.dot(experiment.data[channels], a_inv)`: for each event
row `r`, the dot product of the row with column `j` of the pseudoinverse. -/
def newCol (cols P : List (List ℚ)) (N j : Nat) : List ℚ :=
  (List.range N).map (fun r => dotL (rowVec cols r) (colL P j))

/-- `new_experiment.data[channels] = np.dot(experiment.data[channels], a_inv)`:
assign column `chans[j]` (counting from `j0`) the `j`-th product column.
Columns named by the validated table always exist, so `dictSet`'s append branch
is unreachable here. -/
def updateDataAux (cols P : List (List ℚ)) (N : Nat) :
    Nat → List Chan → List (Chan × List ℚ) → List (Chan × List ℚ)
  | _, [], d => d
  | j, c :: cs, d => updateDataAux cols P N (j + 1) cs (dictSet d c (newCol cols P N j))

/-- The audit-trail dict written into channel `c`'s metadata:
`{x : self.spillover[(x, channel)] for x in channels if x != channel}` (all the
looked-up keys are present once the mixing matrix was built). -/
def bleedTable (sp : Spillover) (chans : List Chan) (c : Chan) : List (Chan × ℚ) :=
  (chans.filter (fun x => x ≠ c)).map (fun x => (x, alookupD sp (x, c) 0))

/-- `new_experiment.metadata[channel]['linear_bleedthrough'] = ...` for each
channel in order.  A channel with no metadata record yet gets a fresh one
(modelled from the spec: the Dataset owns a per-channel metadata record). -/
def updateMetaAux (sp : Spillover) (chans : List Chan) :
    List Chan → List (Chan × ChanMeta) → List (Chan × ChanMeta)
  | [], m => m
  | c :: cs, m =>
    updateMetaAux sp chans cs
      (dictSet m c (dictSet (alookupD m c []) "linear_bleedthrough"
        (MetaVal.table (bleedTable sp chans c))))

/-- The successful tail of `apply`, after all validation passed: clone the
experiment (modelled from the spec as constructing an independent copy),
build the mixing matrix, take its pseudoinverse via `pinvF`, replace the
channel columns by the product, and write the audit metadata. -/
def applyBody (pinvF : List (List ℚ) → List (List ℚ)) (sp : Spillover)
    (exp : Experiment) : Experiment :=
  let chans := channelsOf sp
  let P := pinvF (mixingMatrix sp chans)
  let cols := chans.map (colOfExp exp)
  let N := (cols.headD []).length
  { data := updateDataAux cols P N 0 chans exp.data
    metadata := updateMetaAux sp chans chans exp.metadata }

/-- `BleedthroughLinearOp.apply`, parameterized by the pseudoinverse routine
(`np.linalg.pinv`, which in exact arithmetic is the unique matrix satisfying
`IsMoorePenrose`). -/
def applyWith (pinvF : List (List ℚ) → List (List ℚ)) (sp : Spillover)
    (exp : Experiment) : Except PyError Experiment :=
  if sp = [] then
    .error (.cytoflowOpError "Spillover matrix isn't set. Did you forget to run estimate()?")
  else
    match checkKeys exp sp sp with
    | some msg => .error (.cytoflowOpError msg)
    | none =>
      match firstMissingPair sp (channelsOf sp) with
      | some k => .error (.keyError k)
      | none => .ok (applyBody pinvF sp exp)

/-! ### `BleedthroughLinearOp.estimate`

`estimate` loads one single-color control per configured channel
(`parse_tube(self.controls[channel], experiment)`); `parse_tube` lives in
`cytoflow/operations/import_op.py`, which is not among the reviewed sources, so
control loading is modelled from the spec: a control entry stands for a
loadable file and directly carries the control's event table (rows = events,
one value per channel). -/

/-- One event of a control acquisition: its value in each channel. -/
abbrev Row := Chan → ℚ

/-- The slope (`lr[0]`) of `np.polyfit(x, y, deg = 1)`.  Modelled from the
spec: a first-degree least-squares fit of `y` against `x`, whose intercept is
discarded.  Empty input raises `TypeError` ("expected non-empty vector for
x"); on rank-deficient nonempty input (all `x` equal) numpy falls back to a minimum-norm solution under a `RankWarning`,
modelled here by the unscaled minimum-norm slope — no verified statement
exercises that branch. -/
def polyfitSlope (x y : List ℚ) : Except PyError ℚ :=
  if x.length = 0 then .error .typeErrorPolyfitEmpty
  else
    let n : ℚ := x.length
    let sx := x.sum
    let sy := y.sum
    let sxx := (x.map (fun a => a * a)).sum
    let sxy := (List.zipWith (fun a b => a * b) x y).sum
    let d := n * sxx - sx * sx
    if d = 0 then .ok ((sx / n) * (sy / n) / ((sx / n) * (sx / n) + 1))
    else .ok ((n * sxy - sx * sy) / d)

/-- One edge-trim on column `c`: compute `min * 1.05` and `max * 0.95` of the
current rows, then keep only the rows whose `c`-value lies strictly between
them.  `np.min`/`np.max` on a pandas column never raise: on an empty column
they return `NaN` (pandas' nan-reductions short-circuit), and the `NaN`
bounds are then only compared against the same empty set of rows, so the trim
of an empty column is the empty row list; on a nonempty column the bounds are
the exact scaled minimum and maximum. -/
def trimChannel (c : Chan) (rows : List Row) : List Row :=
  match rows with
  | [] => []
  | r0 :: rest =>
    let mn := rest.foldl (fun x r => if x ≤ r c then x else r c) (r0 c)
    let mx := rest.foldl (fun x r => if x ≤ r c then r c else x) (r0 c)
    let lo := mn * (21 / 20 : ℚ)
    let hi := mx * (19 / 20 : ℚ)
    ((r0 :: rest).filter (fun r => decide (lo < r c))).filter
      (fun r => decide (r c < hi))

/-- The two successive trims of one `(from_channel, to_channel)` iteration:
first on the from-channel, then on the to-channel of the already-trimmed rows
(`reset_index` does not change the row list and is not modelled). -/
def trimPass (f t : Chan) (rows : List Row) : List Row :=
  trimChannel t (trimChannel f rows)

/-- Insertion of a row into a column-sorted row list (ascending by `r c`). -/
def insertRow (c : Chan) (r : Row) : List Row → List Row
  | [] => [r]
  | x :: xs => if r c ≤ x c then r :: x :: xs else x :: insertRow c r xs

/-- `.sort(channel)`: sort the event rows ascending by their value in
`channel`.  The source's sort order (and tie behaviour) only permutes rows and
is invisible to every later filter and sum. -/
def sortByChan (c : Chan) : List Row → List Row
  | [] => []
  | r :: rs => insertRow c r (sortByChan c rs)

/-- The autofluorescence pass: for every configured channel that has an
`af_median` recorded in the experiment's metadata, subtract that scalar from
the corresponding column of the loaded control. -/
def afSubtract (channels : List Chan) (exp : Experiment) (rows : List Row) : List Row :=
  channels.foldl (fun rs af =>
    match alookup "af_median" (alookupD exp.metadata af []) with
    | some (.num m) => rs.map (fun r => Function.update r af (r af - m))
    | _ => rs) rows

/-- The loaded, sorted, baseline-subtracted control of channel `c` — the state
of `data` when the inner `to_channel` loop begins. -/
def preparedControl (channels : List Chan) (controls : List (Chan × List Row))
    (exp : Experiment) (c : Chan) : List Row :=
  afSubtract channels exp (sortByChan c (alookupD controls c []))

/-- The inner `for to_channel in channels` loop for `from_channel = c`.  Note
that the trimmed `data` is threaded on to the next `to_channel` iteration,
exactly as the source reassigns `data` in place. -/
def toLoop (c : Chan) : List Chan → List Row → Spillover →
    Except PyError (List Row × Spillover)
  | [], rows, sp => .ok (rows, sp)
  | t :: ts, rows, sp =>
    if t = c then toLoop c ts rows sp
    else do
      let rows1 := trimPass c t rows
      let slope ← polyfitSlope (rows1.map (fun r => r c)) (rows1.map (fun r => r t))
      toLoop c ts rows1 (dictSet sp (c, t) slope)

/-- The outer `for channel in channels` loop: each from-channel starts from its
freshly loaded and prepared control. -/
def fromLoop (channels : List Chan) (controls : List (Chan × List Row))
    (exp : Experiment) : List Chan → Spillover → Except PyError Spillover
  | [], sp => .ok sp
  | c :: cs, sp => do
    let res ← toLoop c channels (preparedControl channels controls exp c) sp
    fromLoop channels controls exp cs res.2

/-- `BleedthroughLinearOp.estimate`: takes the configured controls (with their
loaded data), the experiment (for `af_median` baselines) and the spillover
table held by the op before the call; returns the table after the call. -/
def estimate (controls : List (Chan × List Row)) (exp : Experiment)
    (sp : Spillover) : Except PyError Spillover :=
  let channels := controls.map Prod.fst
  if channels.length < 2 then
    .error (.cytoflowOpError "Need at least two channels to correct bleedthrough.")
  else fromLoop channels controls exp channels sp

/-- The quantity claim C2 describes: the slope of the fit for `(c, t)` over the
rows of `c`'s freshly prepared control that survive exactly the two trims
(from-channel first, then to-channel). -/
def twoTrimSlope (channels : List Chan) (controls : List (Chan × List Row))
    (exp : Experiment) (c t : Chan) : Except PyError ℚ :=
  let rows := trimPass c t (preparedControl channels controls exp c)
  polyfitSlope (rows.map (fun r => r c)) (rows.map (fun r => r t))

/-! ### Spec-side definitions used by refinement claims -/

/-- The mixing matrix as the spec's words build it (claim C1):
`M[row][col] = spillover[(col, row)] if row ≠ col else 1.0` — the transpose
orientation of the matrix the source builds. -/
def mixingMatrixSpec (sp : Spillover) (chans : List Chan) : List (List ℚ) :=
  chans.map (fun y => chans.map (fun x => if x = y then 1 else alookupD sp (x, y) 0))

/-- Rewrite the value stored under every diagonal key `(c, c)` of a spillover
table, leaving keys, order, and off-diagonal values untouched (claim C10). -/
def setDiagVals (f : SpKey → ℚ) (sp : Spillover) : Spillover :=
  sp.map (fun p => if p.1.1 = p.1.2 then (p.1, f p.1) else p)

/-! ### Concrete instances for counterexamples and witnesses -/

/-- An event over the three channels `A`, `B`, `C`. -/
def mkRow (a b c : ℚ) : Row :=
  fun s => if s = "A" then a else if s = "B" then b else c

/-- Single-color control of channel `A` for claim C2's counterexample: `A` and
`C` stay negative (every edge-trim keeps all rows), while the `B`-trim of the
`(A, B)` iteration discards the first and last event. -/
def c2ctrlA : List Row :=
  [mkRow (-4) 1 (-4), mkRow (-3) 2 (-1), mkRow (-2) 3 (-2), mkRow (-1) 4 (-1)]

def c2ctrlB : List Row :=
  [mkRow (-1) (-1) (-2), mkRow (-2) (-3) (-1), mkRow (-3) (-2) (-3)]

def c2ctrlC : List Row :=
  [mkRow (-1) (-2) (-1), mkRow (-2) (-1) (-2), mkRow (-3) (-3) (-4)]

def c2controls : List (Chan × List Row) :=
  [("A", c2ctrlA), ("B", c2ctrlB), ("C", c2ctrlC)]

def c2exp : Experiment :=
  { data := [("A", [0]), ("B", [0]), ("C", [0])], metadata := [] }

/-- Claim C3's failing input: the control of channel `A` has a constant
positive `A` column, so the from-channel trim discards every row. -/
def c3ctrlA : List Row := [mkRow 1 5 0, mkRow 1 6 0, mkRow 1 7 0]

def c3ctrlB : List Row := [mkRow (-1) (-2) 0, mkRow (-2) (-1) 0]

def c3controls : List (Chan × List Row) := [("A", c3ctrlA), ("B", c3ctrlB)]

def c3exp : Experiment := { data := [], metadata := [] }

/-- A two-channel control set on which `estimate` completes (all control
values negative, so no trim discards anything). -/
def c9ctrlA : List Row :=
  [mkRow (-1) (-2) 0, mkRow (-2) (-1) 0, mkRow (-3) (-3) 0]

def c9ctrlB : List Row :=
  [mkRow (-2) (-1) 0, mkRow (-1) (-2) 0, mkRow (-3) (-3) 0]

def c9controls : List (Chan × List Row) := [("A", c9ctrlA), ("B", c9ctrlB)]

def c9exp : Experiment := { data := [], metadata := [] }

/-- A table held before `estimate` runs, keyed by channels foreign to the
control set. -/
def c9sp : Spillover := [(("X", "Y"), 7)]

/-- The table produced by `estimate` on `c9controls` starting from `c9sp`. -/
def c9out : Spillover :=
  [(("X", "Y"), 7), (("A", "B"), 1 / 2), (("B", "A"), 1 / 2)]

/-- The table produced by `estimate` on `c9controls` starting from the empty
table (used by claim C2's witness). -/
def c2wout : Spillover := [(("A", "B"), 1 / 2), (("B", "A"), 1 / 2)]

/-- The table produced by `estimate` on `c2controls` starting empty.  Note the
stored `("A", "C")` slope `-1`. -/
def c2out : Spillover :=
  [(("A", "B"), 1), (("A", "C"), -1), (("B", "A"), 1 / 2), (("B", "C"), -(1 / 2)),
   (("C", "A"), 9 / 14), (("C", "B"), 3 / 7)]

/-- Claim C1's concrete table: half of `a` bleeds into `b`, nothing back. -/
def c1sp : Spillover := [(("a", "b"), 1 / 2), (("b", "a"), 0)]

def c1exp : Experiment := { data := [("a", [1]), ("b", [0])], metadata := [] }

/-- The pseudoinverse of the matrix the source builds from `c1sp`
(`[[1, 1/2], [0, 1]]`, channel order `[a, b]`). -/
def c1P : List (List ℚ) := [[1, -(1 / 2)], [0, 1]]

/-- The pseudoinverse of the matrix the claim describes for `c1sp`
(`[[1, 0], [1/2, 1]]`, same channel order). -/
def c1Q : List (List ℚ) := [[1, 0], [-(1 / 2), 1]]

/-- The experiment `apply` returns on `c1sp`/`c1exp` with the source's mixing
matrix (channel order `[a, b]`, pseudoinverse `c1P`). -/
def c1out : Experiment :=
  { data := [("a", [1]), ("b", [-(1 / 2)])]
    metadata := [("a", [("linear_bleedthrough", .table [("b", 0)])]),
                 ("b", [("linear_bleedthrough", .table [("a", 1 / 2)])])] }

/-- Claim C4's concrete table: symmetric in coverage, yet the pair `(b, c)` of
the channel set has no key. -/
def c4sp : Spillover :=
  [(("a", "b"), 1 / 10), (("b", "a"), 0), (("a", "c"), 1 / 5), (("c", "a"), 0)]

def c4exp : Experiment :=
  { data := [("a", [1]), ("b", [2]), ("c", [3])], metadata := [] }

/-- Claim C5's concrete table: both off-diagonal coefficients zero. -/
def c5sp : Spillover := [(("a", "b"), 0), (("b", "a"), 0)]

def c5exp : Experiment :=
  { data := [("a", [1, 2]), ("b", [3, 4]), ("c", [5, 6])]
    metadata := [("a", [("af_median", .num 7)])] }

/-- The spec's own singular example for claim C6: the two coefficients have
product 1, so the mixing matrix `[[1, 2], [1/2, 1]]` has determinant 0. -/
def c6sp : Spillover := [(("a", "b"), 2), (("b", "a"), 1 / 2)]

def c6exp : Experiment := { data := [("a", [1]), ("b", [0])], metadata := [] }

def c7sp : Spillover := [(("a", "b"), 1 / 2), (("b", "a"), 1 / 4)]

def c7exp : Experiment :=
  { data := [("a", [1]), ("b", [0]), ("c", [9])], metadata := [] }

/-- The experiment `apply` returns on `c7sp`/`c7exp` (mixing matrix
`[[1, 1/2], [1/4, 1]]`, channel order `[a, b]`, exact inverse `c7P`). -/
def c7P : List (List ℚ) := [[8 / 7, -(4 / 7)], [-(2 / 7), 8 / 7]]

def c7out : Experiment :=
  { data := [("a", [8 / 7]), ("b", [-(4 / 7)]), ("c", [9])]
    metadata := [("a", [("linear_bleedthrough", .table [("b", 1 / 4)])]),
                 ("b", [("linear_bleedthrough", .table [("a", 1 / 2)])])] }

/-- The experiment `apply` returns on `c5sp`/`c5exp`: the data is untouched,
only the audit metadata is added. -/
def c5out : Experiment :=
  { data := [("a", [1, 2]), ("b", [3, 4]), ("c", [5, 6])]
    metadata := [("a", [("af_median", .num 7), ("linear_bleedthrough", .table [("b", 0)])]),
                 ("b", [("linear_bleedthrough", .table [("a", 0)])])] }

/-- Claim C10's concrete table: a single diagonal key. -/
def c10sp : Spillover := [(("c", "c"), 5)]

def c10exp : Experiment := { data := [("c", [1, 2])], metadata := [] }

/-- The experiment `apply` returns on `c10sp`/`c10exp`: the data is untouched
(`1 × 1` identity mixing matrix) and channel `c` gains an empty audit table. -/
def c10out : Experiment :=
  { data := [("c", [1, 2])]
    metadata := [("c", [("linear_bleedthrough", .table [])])] }

/-! ### Lemmas about the dict primitives -/

theorem alookup_mem [DecidableEq α] :
    ∀ {l : List (α × β)} {k : α} {v : β}, alookup k l = some v → (k, v) ∈ l := by
  intro l
  induction l with
  | nil => intro k v h; simp [alookup] at h
  | cons p l ih =>
    intro k v h
    by_cases hp : p.1 = k
    · simp [alookup, hp] at h
      subst hp
      subst h
      simp
    · simp [alookup, hp] at h
      exact List.mem_cons_of_mem _ (ih h)

theorem alookup_map_replace_self [DecidableEq α] :
    ∀ (l : List (α × β)) (k : α) (v : β), (alookup k l).isSome →
      alookup k (l.map (fun p => if p.1 = k then (k, v) else p)) = some v := by
  intro l
  induction l with
  | nil => intro k v h; simp [alookup] at h
  | cons p l ih =>
    intro k v h
    by_cases hp : p.1 = k
    · simp [alookup, hp]
    · simp [alookup, hp] at h ⊢
      exact ih k v h

theorem alookup_map_replace_ne [DecidableEq α] :
    ∀ (l : List (α × β)) (k k' : α) (v : β), k' ≠ k →
      alookup k' (l.map (fun p => if p.1 = k then (k, v) else p)) = alookup k' l := by
  intro l
  induction l with
  | nil => intro k k' v _; rfl
  | cons p l ih =>
    intro k k' v h
    by_cases hp : p.1 = k
    · have hk : ¬ k = k' := fun hh => h hh.symm
      simp only [List.map_cons, hp, if_true]
      simp only [alookup, hk, hp, if_false]
      exact ih k k' v h
    · simp only [List.map_cons, hp, if_false]
      by_cases hpk : p.1 = k'
      · simp only [alookup, hpk, if_true]
      · simp only [alookup, hpk, if_false]
        exact ih k k' v h

theorem alookup_append_self [DecidableEq α] :
    ∀ (l : List (α × β)) (k : α) (v : β), alookup k l = none →
      alookup k (l ++ [(k, v)]) = some v := by
  intro l
  induction l with
  | nil => intro k v _; simp [alookup]
  | cons p l ih =>
    intro k v h
    by_cases hp : p.1 = k
    · simp [alookup, hp] at h
    · simp [alookup, hp] at h ⊢
      exact ih k v h

theorem alookup_append_ne [DecidableEq α] :
    ∀ (l : List (α × β)) (k k' : α) (v : β), k' ≠ k →
      alookup k' (l ++ [(k, v)]) = alookup k' l := by
  intro l
  induction l with
  | nil =>
    intro k k' v h
    have hk : k ≠ k' := fun hh => h hh.symm
    simp [alookup, hk]
  | cons p l ih =>
    intro k k' v h
    by_cases hp : p.1 = k'
    · simp [alookup, hp]
    · simp [alookup, hp]
      exact ih k k' v h

theorem alookup_dictSet_self [DecidableEq α] (l : List (α × β)) (k : α) (v : β) :
    alookup k (dictSet l k v) = some v := by
  unfold dictSet
  by_cases h : (alookup k l).isSome
  · simp only [h, if_true]
    exact alookup_map_replace_self l k v h
  · simp only [h, if_false]
    exact alookup_append_self l k v (Option.not_isSome_iff_eq_none.mp h)

theorem alookup_dictSet_ne [DecidableEq α] (l : List (α × β)) (k k' : α) (v : β)
    (h : k' ≠ k) : alookup k' (dictSet l k v) = alookup k' l := by
  unfold dictSet
  by_cases hs : (alookup k l).isSome
  · simp only [hs, if_true]
    exact alookup_map_replace_ne l k k' v h
  · simp only [hs, if_false]
    exact alookup_append_ne l k k' v h

theorem mem_dictSet [DecidableEq α] {l : List (α × β)} {k : α} {v : β} {p : α × β}
    (hp : p ∈ dictSet l k v) : p ∈ l ∨ p.2 = v := by
  unfold dictSet at hp
  by_cases hs : (alookup k l).isSome
  · simp only [hs, if_true, List.mem_map] at hp
    obtain ⟨q, hq, he⟩ := hp
    by_cases hqk : q.1 = k
    · simp only [hqk, if_true, if_pos] at he
      right; rw [← he]
    · simp only [hqk, if_false, if_neg, not_false_iff] at he
      left; rw [← he]; exact hq
  · simp only [hs, if_false] at hp
    rcases List.mem_append.mp hp with h1 | h1
    · left; exact h1
    · right
      rw [List.mem_singleton.mp h1]

theorem map_replace_of_lookup [DecidableEq α] :
    ∀ (l : List (α × β)) (k : α) (v : β), (l.map Prod.fst).Nodup →
      alookup k l = some v → l.map (fun p => if p.1 = k then (k, v) else p) = l := by
  intro l
  induction l with
  | nil => intro k v _ _; rfl
  | cons p l ih =>
    intro k v hnd h
    simp only [List.map_cons, List.nodup_cons] at hnd
    by_cases hp : p.1 = k
    · simp [alookup, hp] at h
      have htail : ∀ q ∈ l, q.1 ≠ k := by
        intro q hq hqk
        refine hnd.1 ?_
        rw [hp, ← hqk]
        exact List.mem_map_of_mem Prod.fst hq
      have h2 : l.map (fun q => if q.1 = k then (k, v) else q) = l := by
        conv_rhs => rw [← List.map_id l]
        exact List.map_congr_left (fun q hq => by simp [htail q hq])
      simp only [List.map_cons, hp, if_true, h2]
      rw [← h, ← hp]
    · simp [alookup, hp] at h
      simp only [List.map_cons, hp, if_false, ih k v hnd.2 h]

/-- A dict write of the value already stored under the key leaves the dict
unchanged (keys assumed distinct). -/
theorem dictSet_of_lookup_eq [DecidableEq α] {l : List (α × β)} {k : α} {v : β}
    (hnd : (l.map Prod.fst).Nodup) (h : alookup k l = some v) : dictSet l k v = l := by
  have hs : (alookup k l).isSome := by simp [h]
  unfold dictSet
  simp only [hs, if_true]
  exact map_replace_of_lookup l k v hnd h

/-! ### Lemmas about the list-matrix primitives -/

theorem dotL_cons (a : ℚ) (as : List ℚ) (b : ℚ) (bs : List ℚ) :
    dotL (a :: as) (b :: bs) = a * b + dotL as bs := by
  simp [dotL]

theorem dotL_nil_right (xs : List ℚ) : dotL xs [] = 0 := by
  cases xs <;> simp [dotL]

theorem dotL_comm : ∀ xs ys : List ℚ, dotL xs ys = dotL ys xs := by
  intro xs
  induction xs with
  | nil => intro ys; cases ys <;> simp [dotL]
  | cons a as ih =>
    intro ys
    cases ys with
    | nil => simp [dotL]
    | cons b bs => rw [dotL_cons, dotL_cons, ih bs, mul_comm]

theorem dotL_map_zero (l : List α) : ∀ v : List ℚ, dotL (l.map (fun _ => (0 : ℚ))) v = 0 := by
  induction l with
  | nil => intro v; cases v <;> simp [dotL]
  | cons a as ih =>
    intro v
    cases v with
    | nil => exact dotL_nil_right _
    | cons b bs => rw [List.map_cons, dotL_cons, ih bs, zero_mul, zero_add]

theorem dotL_basis : ∀ (v : List ℚ) (n i : Nat), v.length = n → i < n →
    dotL ((List.range n).map (fun j => if i = j then (1 : ℚ) else 0)) v = v.getD i 0 := by
  intro v
  induction v with
  | nil =>
    intro n i hlen hi
    rw [← hlen] at hi
    exact absurd hi (by simp)
  | cons a vs ih =>
    intro n i hlen hi
    rcases n with _ | m
    · simp at hlen
    · have hvs : vs.length = m := by simpa using hlen
      rw [List.range_succ_eq_map, List.map_cons, List.map_map, dotL_cons]
      rcases i with _ | k
      · have hz : ((List.range m).map ((fun j => if 0 = j then (1 : ℚ) else 0) ∘ Nat.succ)) =
            (List.range m).map (fun _ => (0 : ℚ)) :=
          List.map_congr_left (fun j _ => by simp)
        rw [hz, dotL_map_zero]
        simp
      · have hsucc : ((List.range m).map ((fun j => if k + 1 = j then (1 : ℚ) else 0) ∘ Nat.succ)) =
            (List.range m).map (fun j => if k = j then (1 : ℚ) else 0) :=
          List.map_congr_left (fun j _ => by simp)
        rw [hsucc, ih m k hvs (by omega)]
        simp

theorem dotL_basis_right (v : List ℚ) (n i : Nat) (hlen : v.length = n) (hi : i < n) :
    dotL v ((List.range n).map (fun j => if j = i then (1 : ℚ) else 0)) = v.getD i 0 := by
  rw [dotL_comm]
  have h : ((List.range n).map fun j => if j = i then (1 : ℚ) else 0) =
      (List.range n).map (fun j => if i = j then (1 : ℚ) else 0) :=
    List.map_congr_left (fun j _ => by by_cases hj : j = i <;> simp [hj, Ne.symm, eq_comm])
  rw [h]
  exact dotL_basis v n i hlen hi

theorem map_getD_range (l : List α) (d : α) :
    ∀ n, l.length = n → (List.range n).map (fun j => l.getD j d) = l := by
  induction l with
  | nil => intro n hn; subst hn; rfl
  | cons a as ih =>
    intro n hn
    rcases n with _ | m
    · simp at hn
    · have has : as.length = m := by simpa using hn
      rw [List.range_succ_eq_map, List.map_cons, List.map_map]
      have h2 : ((List.range m).map ((fun j => (a :: as).getD j d) ∘ Nat.succ)) =
          (List.range m).map (fun j => as.getD j d) :=
        List.map_congr_left (fun j _ => by simp)
      rw [h2, ih m has]
      rfl

theorem getD_range_map (n j : Nat) (f : Nat → α) (d : α) (h : j < n) :
    ((List.range n).map f).getD j d = f j := by
  have hlen : j < ((List.range n).map f).length := by simpa using h
  rw [List.getD_eq_getElem _ _ hlen, List.getElem_map]
  congr 1
  simp

theorem getD_map_of_lt (f : α → β) (l : List α) (i : Nat) (h : i < l.length) (d : β) (d0 : α) :
    (l.map f).getD i d = f (l.getD i d0) := by
  have hlen : i < (l.map f).length := by simpa using h
  rw [List.getD_eq_getElem _ _ hlen, List.getD_eq_getElem _ _ h, List.getElem_map]

theorem getD_mem (l : List α) (i : Nat) (d : α) (h : i < l.length) : l.getD i d ∈ l := by
  rw [List.getD_eq_getElem _ _ h]
  exact List.getElem_mem h

theorem colL_length (A : List (List ℚ)) (j : Nat) : (colL A j).length = A.length := by
  simp [colL]

theorem colL_getD (A : List (List ℚ)) (i j : Nat) (h : i < A.length) :
    (colL A j).getD i 0 = (A.getD i []).getD j 0 := by
  unfold colL
  exact getD_map_of_lt _ A i h 0 []

theorem square_headD_length {n : Nat} {B : List (List ℚ)} (h : IsSquare n B) :
    (B.headD []).length = n := by
  obtain ⟨h1, h2⟩ := h
  cases B with
  | nil => simpa using h1
  | cons r rs => exact h2 r (by simp)

theorem idL_length (n : Nat) : (idL n).length = n := by simp [idL]

theorem idL_square (n : Nat) : IsSquare n (idL n) := by
  constructor
  · simp [idL]
  · intro r hr
    simp only [idL, List.mem_map] at hr
    obtain ⟨i, _, he⟩ := hr
    rw [← he]
    simp

theorem idL_headD_length (n : Nat) : ((idL n).headD []).length = n := by
  cases n with
  | zero => rfl
  | succ m =>
    unfold idL
    rw [List.range_succ_eq_map, List.map_cons]
    simp

theorem colL_idL (n j : Nat) (h : j < n) :
    colL (idL n) j = (List.range n).map (fun i => if i = j then (1 : ℚ) else 0) := by
  unfold colL idL
  rw [List.map_map]
  exact List.map_congr_left (fun i _ => by
    simp only [Function.comp]
    exact getD_range_map n j _ 0 h)

theorem mm_id_left {n : Nat} {B : List (List ℚ)} (hB : IsSquare n B) : mm (idL n) B = B := by
  unfold mm idL
  rw [square_headD_length hB, List.map_map]
  have hstep : ∀ i ∈ List.range n,
      ((fun row => (List.range n).map fun j => dotL row (colL B j)) ∘
        fun i => (List.range n).map fun j => if i = j then (1 : ℚ) else 0) i = B.getD i [] := by
    intro i hi
    have hin : i < n := List.mem_range.mp hi
    simp only [Function.comp]
    have hrow : ∀ j ∈ List.range n,
        dotL ((List.range n).map fun j => if i = j then (1 : ℚ) else 0) (colL B j) =
          (B.getD i []).getD j 0 := by
      intro j _
      rw [dotL_basis (colL B j) n i (by rw [colL_length, hB.1]) hin]
      exact colL_getD B i j (by rw [hB.1]; exact hin)
    rw [List.map_congr_left hrow]
    exact map_getD_range (B.getD i []) 0 n
      (hB.2 (B.getD i []) (getD_mem B i [] (by rw [hB.1]; exact hin)))
  rw [List.map_congr_left hstep]
  exact map_getD_range B [] n hB.1

theorem mm_id_right {n : Nat} {A : List (List ℚ)} (hA : IsSquare n A) : mm A (idL n) = A := by
  unfold mm
  rw [idL_headD_length]
  have hstep : ∀ row ∈ A,
      (List.range n).map (fun j => dotL row (colL (idL n) j)) = row := by
    intro row hrow
    have hlen : row.length = n := hA.2 row hrow
    have hinner : ∀ j ∈ List.range n,
        dotL row (colL (idL n) j) = row.getD j 0 := by
      intro j hj
      have hjn : j < n := List.mem_range.mp hj
      rw [colL_idL n j hjn]
      exact dotL_basis_right row n j hlen hjn
    rw [List.map_congr_left hinner]
    exact map_getD_range row 0 n hlen
  rw [List.map_congr_left hstep]
  simp

/-- The Moore–Penrose pseudoinverse of the identity is the identity (the first
Penrose equation alone pins it down). -/
theorem moorePenrose_id_unique {n : Nat} {P : List (List ℚ)}
    (h : IsMoorePenrose n (idL n) P) : P = idL n := by
  obtain ⟨hsq, h1, _, _, _⟩ := h
  rw [mm_id_left hsq, mm_id_right hsq] at h1
  exact h1

/-! ### Lemmas about the validation and update steps of `apply` -/

theorem applyWith_ok_inv {pf : List (List ℚ) → List (List ℚ)} {sp : Spillover}
    {exp out : Experiment} (h : applyWith pf sp exp = .ok out) :
    sp ≠ [] ∧ checkKeys exp sp sp = none ∧
      firstMissingPair sp (channelsOf sp) = none ∧ out = applyBody pf sp exp := by
  by_cases hsp : sp = []
  · rw [applyWith, if_pos hsp] at h
    simp at h
  · rw [applyWith, if_neg hsp] at h
    cases hck : checkKeys exp sp sp with
    | some m => rw [hck] at h; simp at h
    | none =>
      rw [hck] at h
      cases hfm : firstMissingPair sp (channelsOf sp) with
      | some k => rw [hfm] at h; simp at h
      | none =>
        rw [hfm] at h
        simp only [Except.ok.injEq] at h
        exact ⟨hsp, rfl, rfl, h.symm⟩

theorem checkKeys_none_iff (exp : Experiment) (sp : Spillover) :
    ∀ l, checkKeys exp sp l = none ↔
      ∀ p ∈ l, hasCol exp p.1.1 = true ∧ hasCol exp p.1.2 = true ∧
        (alookup (p.1.2, p.1.1) sp).isNone = false := by
  intro l
  induction l with
  | nil => simp [checkKeys]
  | cons p rest ih =>
    by_cases h1 : hasCol exp p.1.1
    · by_cases h2 : hasCol exp p.1.2
      · by_cases h3 : (alookup (p.1.2, p.1.1) sp).isNone
        · simp [checkKeys, h1, h2, h3]
        · simp only [Bool.not_eq_true] at h3
          have hs : (alookup (p.1.2, p.1.1) sp).isSome = true := by
            rw [Option.isSome_iff_ne_none]
            intro hn
            rw [hn] at h3
            simp at h3
          simp [checkKeys, h1, h2, h3, hs, ih]
      · simp only [Bool.not_eq_true] at h2
        simp [checkKeys, h1, h2]
    · simp only [Bool.not_eq_true] at h1
      simp [checkKeys, h1]

theorem channelsOf_nodup (sp : Spillover) : (channelsOf sp).Nodup :=
  List.nodup_dedup _

theorem mem_channelsOf {sp : Spillover} {c : Chan} :
    c ∈ channelsOf sp ↔ ∃ p ∈ sp, p.1.1 = c := by
  simp [channelsOf, List.mem_dedup]

theorem channelsOf_ne_nil {sp : Spillover} (h : sp ≠ []) : channelsOf sp ≠ [] := by
  cases sp with
  | nil => exact absurd rfl h
  | cons p rest =>
    exact List.ne_nil_of_mem (mem_channelsOf.mpr ⟨p, by simp, rfl⟩)

theorem hasCol_of_channelsOf {exp : Experiment} {sp : Spillover}
    (hck : checkKeys exp sp sp = none) {c : Chan} (hc : c ∈ channelsOf sp) :
    hasCol exp c = true := by
  obtain ⟨p, hp, he⟩ := mem_channelsOf.mp hc
  have hh := (checkKeys_none_iff exp sp sp).mp hck p hp
  rw [← he]
  exact hh.1

theorem firstMissingPair_none_iff {sp : Spillover} {chans : List Chan} :
    firstMissingPair sp chans = none ↔
      ∀ y ∈ chans, ∀ x ∈ chans, x ≠ y → (alookup (y, x) sp).isSome = true := by
  unfold firstMissingPair
  rw [List.findSome?_eq_none_iff]
  constructor
  · intro h y hy x hx hxy
    have hh := h y hy
    rw [List.findSome?_eq_none_iff] at hh
    have h3 := hh x hx
    by_cases hs : (alookup (y, x) sp).isSome
    · exact hs
    · rw [if_pos ⟨hxy, by simpa using hs⟩] at h3
      simp at h3
  · intro h y hy
    rw [List.findSome?_eq_none_iff]
    intro x hx
    by_cases hc : x ≠ y ∧ (alookup (y, x) sp).isNone = true
    · have := h y hy x hx hc.1
      rw [Option.isNone_iff_eq_none] at hc
      rw [hc.2] at this
      simp at this
    · rw [if_neg hc]

theorem updateDataAux_lookup_notmem (cols P : List (List ℚ)) (N : Nat) :
    ∀ (cs : List Chan) (j : Nat) (d : List (Chan × List ℚ)) (c : Chan), c ∉ cs →
      alookup c (updateDataAux cols P N j cs d) = alookup c d := by
  intro cs
  induction cs with
  | nil => intro j d c _; rfl
  | cons c0 cs ih =>
    intro j d c hc
    simp only [List.mem_cons, not_or] at hc
    rw [updateDataAux, ih (j + 1) _ c hc.2, alookup_dictSet_ne _ _ _ _ hc.1]

theorem updateDataAux_lookup_mem (cols P : List (List ℚ)) (N : Nat) :
    ∀ (cs : List Chan) (j : Nat) (d : List (Chan × List ℚ)) (k : Nat) (hk : k < cs.length),
      cs.Nodup →
      alookup (cs.get ⟨k, hk⟩) (updateDataAux cols P N j cs d) =
        some (newCol cols P N (j + k)) := by
  intro cs
  induction cs with
  | nil => intro j d k hk; simp at hk
  | cons c0 cs ih =>
    intro j d k hk hnd
    rcases k with _ | k
    · rw [updateDataAux, show (c0 :: cs).get ⟨0, hk⟩ = c0 from rfl]
      have hc0 : c0 ∉ cs := (List.nodup_cons.mp hnd).1
      rw [updateDataAux_lookup_notmem cols P N cs (j + 1) _ c0 hc0]
      simp [alookup_dictSet_self]
    · rw [updateDataAux]
      have hh := ih (j + 1) (dictSet d c0 (newCol cols P N j)) k (by simpa using hk)
        (List.nodup_cons.mp hnd).2
      have harith : j + 1 + k = j + (k + 1) := by omega
      rw [harith] at hh
      rw [show (c0 :: cs).get ⟨k + 1, hk⟩ = cs.get ⟨k, by simpa using hk⟩ from rfl, hh]

theorem updateDataAux_mem (cols P : List (List ℚ)) (N : Nat) :
    ∀ (cs : List Chan) (j : Nat) (d : List (Chan × List ℚ)) (p : Chan × List ℚ),
      p ∈ updateDataAux cols P N j cs d → p ∈ d ∨ ∃ jj, p.2 = newCol cols P N jj := by
  intro cs
  induction cs with
  | nil => intro j d p hp; left; exact hp
  | cons c0 cs ih =>
    intro j d p hp
    rw [updateDataAux] at hp
    rcases ih (j + 1) _ p hp with hh | hh
    · rcases mem_dictSet hh with h2 | h2
      · left; exact h2
      · right; exact ⟨j, h2⟩
    · right; exact hh

theorem updateMetaAux_lookup_notmem (sp : Spillover) (chans : List Chan) :
    ∀ (cs : List Chan) (m : List (Chan × ChanMeta)) (c : Chan), c ∉ cs →
      alookup c (updateMetaAux sp chans cs m) = alookup c m := by
  intro cs
  induction cs with
  | nil => intro m c _; rfl
  | cons c0 cs ih =>
    intro m c hc
    simp only [List.mem_cons, not_or] at hc
    rw [updateMetaAux, ih _ c hc.2, alookup_dictSet_ne _ _ _ _ hc.1]

theorem updateMetaAux_lookup_mem (sp : Spillover) (chans : List Chan) :
    ∀ (cs : List Chan) (m : List (Chan × ChanMeta)) (c : Chan), cs.Nodup → c ∈ cs →
      alookup c (updateMetaAux sp chans cs m) =
        some (dictSet (alookupD m c []) "linear_bleedthrough"
          (MetaVal.table (bleedTable sp chans c))) := by
  intro cs
  induction cs with
  | nil => intro m c _ hc; simp at hc
  | cons c0 cs ih =>
    intro m c hnd hc
    have hnd2 := List.nodup_cons.mp hnd
    rw [updateMetaAux]
    rcases List.mem_cons.mp hc with he | hm
    · subst he
      rw [updateMetaAux_lookup_notmem sp chans cs _ c hnd2.1]
      simp [alookup_dictSet_self]
    · have hne : c ≠ c0 := fun he => hnd2.1 (he ▸ hm)
      rw [ih _ c hnd2.2 hm]
      unfold alookupD
      rw [alookup_dictSet_ne _ _ _ _ hne]

theorem alookup_colOfExp {exp : Experiment} {c : Chan} (hc : hasCol exp c = true) :
    alookup c exp.data = some (colOfExp exp c) := by
  unfold hasCol at hc
  cases halo : alookup c exp.data with
  | none => rw [halo] at hc; simp at hc
  | some col => unfold colOfExp alookupD; rw [halo]; rfl

theorem colOfExp_length_of_wf {exp : Experiment} {N : Nat}
    (hrc : ∀ p ∈ exp.data, p.2.length = N) {c : Chan} (hc : hasCol exp c = true) :
    (colOfExp exp c).length = N := by
  unfold hasCol at hc
  cases halo : alookup c exp.data with
  | none => rw [halo] at hc; simp at hc
  | some col =>
    unfold colOfExp alookupD
    rw [halo]
    exact hrc (c, col) (alookup_mem halo)

/-- With all off-diagonal coefficients zero, the mixing matrix the source
builds is the identity. -/
theorem mixing_zero_offdiag (sp : Spillover)
    (hz : ∀ p ∈ sp, p.1.1 ≠ p.1.2 → p.2 = 0) :
    mixingMatrix sp (channelsOf sp) = idL (channelsOf sp).length := by
  have hndch : (channelsOf sp).Nodup := channelsOf_nodup sp
  apply List.ext_getElem
  · simp [mixingMatrix, idL]
  intro i h1 h2
  simp only [mixingMatrix, List.getElem_map] at h1 ⊢
  simp only [idL, List.getElem_map, List.getElem_range] at h2 ⊢
  have hin : i < (channelsOf sp).length := by simpa using h1
  apply List.ext_getElem
  · simp
  intro j hj1 hj2
  have hjn : j < (channelsOf sp).length := by simpa using hj1
  simp only [List.getElem_map, List.getElem_range]
  by_cases hij : i = j
  · subst hij
    simp [mixingEntry]
  · have hne : (channelsOf sp)[j] ≠ (channelsOf sp)[i] := by
      intro he
      exact hij (hndch.getElem_inj_iff.mp he).symm
    rw [mixingEntry, if_neg hne, if_neg hij]
    unfold alookupD
    cases halo : alookup ((channelsOf sp)[i], (channelsOf sp)[j]) sp with
    | none => rfl
    | some v =>
      simp only [Option.getD_some]
      exact hz _ (alookup_mem halo) (Ne.symm hne)

/-- Multiplying the selected columns by the identity pseudoinverse reproduces
each selected column. -/
theorem newCol_idL (exp : Experiment) (chans : List Chan) (N : Nat)
    (hlen : ∀ c ∈ chans, (colOfExp exp c).length = N) (j : Nat) (hj : j < chans.length) :
    newCol (chans.map (colOfExp exp)) (idL chans.length) N j =
      colOfExp exp (chans.getD j "") := by
  unfold newCol
  rw [colL_idL chans.length j hj]
  have hgd : chans.getD j "" ∈ chans := getD_mem chans j "" hj
  have hstep : ∀ r ∈ List.range N,
      dotL (rowVec (chans.map (colOfExp exp)) r)
        ((List.range chans.length).map fun i => if i = j then (1 : ℚ) else 0) =
        (colOfExp exp (chans.getD j "")).getD r 0 := by
    intro r _
    rw [dotL_basis_right (rowVec (chans.map (colOfExp exp)) r) chans.length j
      (by simp [rowVec]) hj]
    unfold rowVec
    rw [getD_map_of_lt (fun c => c.getD r 0) (chans.map (colOfExp exp)) j (by simpa using hj) 0 []]
    rw [getD_map_of_lt (colOfExp exp) chans j hj [] ""]
  rw [List.map_congr_left hstep]
  exact map_getD_range (colOfExp exp (chans.getD j "")) 0 N (hlen _ hgd)

/-- Writing into every channel column the value it already holds leaves the
data table unchanged. -/
theorem updateDataAux_id (cols P : List (List ℚ)) (N : Nat) :
    ∀ (cs : List Chan) (j : Nat) (d : List (Chan × List ℚ)),
      (d.map Prod.fst).Nodup →
      (∀ k, k < cs.length → alookup (cs.getD k "") d = some (newCol cols P N (j + k))) →
      updateDataAux cols P N j cs d = d := by
  intro cs
  induction cs with
  | nil => intro j d _ _; rfl
  | cons c0 cs ih =>
    intro j d hnd hval
    rw [updateDataAux]
    have h0 := hval 0 (by simp)
    rw [show (c0 :: cs).getD 0 "" = c0 from rfl, show j + 0 = j from rfl] at h0
    rw [dictSet_of_lookup_eq hnd h0]
    apply ih (j + 1) d hnd
    intro k hk
    have hk2 := hval (k + 1) (by simpa using hk)
    rw [show (c0 :: cs).getD (k + 1) "" = cs.getD k "" from rfl] at hk2
    rw [show j + (k + 1) = j + 1 + k from by omega] at hk2
    exact hk2

/-! ### Lemmas about rewriting diagonal values (claim C10) -/

theorem findSome?_congr {α β : Type} {f g : α → Option β} :
    ∀ l : List α, (∀ a ∈ l, f a = g a) → l.findSome? f = l.findSome? g := by
  intro l
  induction l with
  | nil => intro _; rfl
  | cons a l ih =>
    intro h
    rw [List.findSome?_cons, List.findSome?_cons, h a (List.mem_cons_self a l)]
    cases g a with
    | none => exact ih (fun b hb => h b (List.mem_cons_of_mem _ hb))
    | some v => rfl

theorem setDiag_fst (f : SpKey → ℚ) (sp : Spillover) :
    (setDiagVals f sp).map (fun p => p.1.1) = sp.map (fun p => p.1.1) := by
  unfold setDiagVals
  rw [List.map_map]
  exact List.map_congr_left (fun p _ => by by_cases hd : p.1.1 = p.1.2 <;> simp [hd])

theorem channelsOf_setDiag (f : SpKey → ℚ) (sp : Spillover) :
    channelsOf (setDiagVals f sp) = channelsOf sp := by
  unfold channelsOf
  rw [setDiag_fst]

theorem alookup_setDiag_isNone (f : SpKey → ℚ) (k : SpKey) :
    ∀ sp : Spillover, (alookup k (setDiagVals f sp)).isNone = (alookup k sp).isNone := by
  intro sp
  induction sp with
  | nil => rfl
  | cons p sp ih =>
    show (alookup k ((if p.1.1 = p.1.2 then (p.1, f p.1) else p) :: setDiagVals f sp)).isNone = _
    by_cases hd : p.1.1 = p.1.2
    · rw [if_pos hd]
      by_cases hp : p.1 = k
      · simp [alookup, hp]
      · simp [alookup, hp, ih]
    · rw [if_neg hd]
      by_cases hp : p.1 = k
      · simp [alookup, hp]
      · simp [alookup, hp, ih]

theorem alookup_setDiag_offdiag (f : SpKey → ℚ) (k : SpKey) (hk : k.1 ≠ k.2) :
    ∀ sp : Spillover, alookup k (setDiagVals f sp) = alookup k sp := by
  intro sp
  induction sp with
  | nil => rfl
  | cons p sp ih =>
    show alookup k ((if p.1.1 = p.1.2 then (p.1, f p.1) else p) :: setDiagVals f sp) = _
    by_cases hp : p.1 = k
    · have hd : ¬ p.1.1 = p.1.2 := by rw [hp]; exact hk
      rw [if_neg hd]
      simp [alookup, hp]
    · by_cases hd : p.1.1 = p.1.2
      · rw [if_pos hd]
        simp [alookup, hp, ih]
      · rw [if_neg hd]
        simp [alookup, hp, ih]

theorem checkKeys_setDiag (f : SpKey → ℚ) (exp : Experiment) (sp : Spillover) :
    ∀ l, checkKeys exp (setDiagVals f sp) (setDiagVals f l) = checkKeys exp sp l := by
  intro l
  induction l with
  | nil => rfl
  | cons p l ih =>
    show checkKeys exp _ ((if p.1.1 = p.1.2 then (p.1, f p.1) else p) :: setDiagVals f l) = _
    have hmir : (alookup (p.1.2, p.1.1) (setDiagVals f sp)).isNone =
        (alookup (p.1.2, p.1.1) sp).isNone := alookup_setDiag_isNone f _ sp
    by_cases hd : p.1.1 = p.1.2
    · rw [if_pos hd]
      simp only [checkKeys, hmir, ih]
    · rw [if_neg hd]
      simp only [checkKeys, hmir, ih]

theorem firstMissingPair_setDiag (f : SpKey → ℚ) (sp : Spillover) (chans : List Chan) :
    firstMissingPair (setDiagVals f sp) chans = firstMissingPair sp chans := by
  unfold firstMissingPair
  apply findSome?_congr
  intro y _
  apply findSome?_congr
  intro x _
  rw [alookup_setDiag_isNone]

theorem mixingMatrix_setDiag (f : SpKey → ℚ) (sp : Spillover) (chans : List Chan) :
    mixingMatrix (setDiagVals f sp) chans = mixingMatrix sp chans := by
  unfold mixingMatrix
  apply List.map_congr_left
  intro y _
  apply List.map_congr_left
  intro x _
  unfold mixingEntry
  by_cases hxy : x = y
  · simp [hxy]
  · rw [if_neg hxy, if_neg hxy]
    unfold alookupD
    rw [alookup_setDiag_offdiag f (y, x) (fun he => hxy he.symm)]

theorem bleedTable_setDiag (f : SpKey → ℚ) (sp : Spillover) (chans : List Chan) (c : Chan) :
    bleedTable (setDiagVals f sp) chans c = bleedTable sp chans c := by
  unfold bleedTable
  apply List.map_congr_left
  intro x hx
  have hxc : x ≠ c := by
    have := List.of_mem_filter hx
    simpa using this
  unfold alookupD
  rw [alookup_setDiag_offdiag f (x, c) hxc]

theorem updateMetaAux_setDiag (f : SpKey → ℚ) (sp : Spillover) (chans : List Chan) :
    ∀ (cs : List Chan) (m : List (Chan × ChanMeta)),
      updateMetaAux (setDiagVals f sp) chans cs m = updateMetaAux sp chans cs m := by
  intro cs
  induction cs with
  | nil => intro m; rfl
  | cons c0 cs ih =>
    intro m
    rw [updateMetaAux, updateMetaAux, bleedTable_setDiag, ih]

/-! ### Lemmas about the loops of `estimate` -/

theorem except_bind_ok {α β : Type} {x : Except PyError α} {f : α → Except PyError β} {b : β}
    (h : (x >>= f) = .ok b) : ∃ a, x = .ok a ∧ f a = .ok b := by
  cases x with
  | error e => simp [Bind.bind, Except.bind] at h
  | ok a => exact ⟨a, rfl, by simpa [Bind.bind, Except.bind] using h⟩

/-- The inner loop only writes keys `(c, t)` for `t` in the remaining
to-channel list: every other key's binding is untouched. -/
theorem toLoop_preserves (c : Chan) :
    ∀ (ts : List Chan) (rows : List Row) (sp : Spillover) (res : List Row × Spillover),
      toLoop c ts rows sp = .ok res →
      ∀ k : SpKey, (∀ t ∈ ts, k ≠ (c, t)) → alookup k res.2 = alookup k sp := by
  intro ts
  induction ts with
  | nil =>
    intro rows sp res h k _
    simp only [toLoop, Except.ok.injEq] at h
    rw [← h]
  | cons t ts ih =>
    intro rows sp res h k hk
    rw [toLoop] at h
    by_cases htc : t = c
    · rw [if_pos htc] at h
      exact ih rows sp res h k (fun u hu => hk u (List.mem_cons_of_mem _ hu))
    · rw [if_neg htc] at h
      obtain ⟨slope, _, h2⟩ := except_bind_ok h
      rw [ih (trimPass c t rows) _ res h2 k (fun u hu => hk u (List.mem_cons_of_mem _ hu))]
      exact alookup_dictSet_ne _ _ _ _ (hk t (List.mem_cons_self t ts))

/-- The outer loop only writes keys `(c, t)` with `c` in the remaining
from-channel list and `t` among the configured channels. -/
theorem fromLoop_preserves (channels : List Chan) (controls : List (Chan × List Row))
    (exp : Experiment) :
    ∀ (cs : List Chan) (sp sp' : Spillover),
      fromLoop channels controls exp cs sp = .ok sp' →
      ∀ k : SpKey, (∀ c ∈ cs, ∀ t ∈ channels, k ≠ (c, t)) →
      alookup k sp' = alookup k sp := by
  intro cs
  induction cs with
  | nil =>
    intro sp sp' h k _
    simp only [fromLoop, Except.ok.injEq] at h
    rw [← h]
  | cons c cs ih =>
    intro sp sp' h k hk
    rw [fromLoop] at h
    obtain ⟨res, hres, h2⟩ := except_bind_ok h
    rw [ih res.2 sp' h2 k (fun u hu t ht => hk u (List.mem_cons_of_mem _ hu) t ht)]
    exact toLoop_preserves c channels _ sp res hres k
      (fun t ht => hk c (List.mem_cons_self c cs) t ht)

/-- The first effective iteration of the inner loop trims the current rows by
the from-channel and the first to-channel `t` different from `c`, fits, and
stores the slope under `(c, t)`; the binding survives the rest of the loop. -/
theorem toLoop_first_write (c : Chan) :
    ∀ (ts : List Chan) (rows : List Row) (sp : Spillover) (res : List Row × Spillover)
      (t : Chan) (s : ℚ),
      ts.Nodup →
      (ts.filter (fun x => x ≠ c)).head? = some t →
      polyfitSlope ((trimPass c t rows).map (fun r => r c))
        ((trimPass c t rows).map (fun r => r t)) = .ok s →
      toLoop c ts rows sp = .ok res →
      alookup (c, t) res.2 = some s := by
  intro ts
  induction ts with
  | nil => intro rows sp res t s _ ht _ _; simp at ht
  | cons t0 ts ih =>
    intro rows sp res t s hnd ht hpoly h
    rw [toLoop] at h
    by_cases ht0 : t0 = c
    · rw [if_pos ht0] at h
      have ht' : (ts.filter (fun x => x ≠ c)).head? = some t := by
        rw [List.filter_cons] at ht
        simpa [ht0] using ht
      exact ih rows sp res t s (List.nodup_cons.mp hnd).2 ht' hpoly h
    · rw [if_neg ht0] at h
      have htt : t0 = t := by
        rw [List.filter_cons] at ht
        simpa [ht0] using ht
      subst htt
      obtain ⟨s', hps', h2⟩ := except_bind_ok h
      rw [hpoly] at hps'
      injection hps' with hse
      subst hse
      have htnotin : t0 ∉ ts := (List.nodup_cons.mp hnd).1
      rw [toLoop_preserves c ts _ _ res h2 (c, t0)
        (fun u hu he => htnotin (by rw [(Prod.mk.injEq _ _ _ _).mp he |>.2]; exact hu))]
      exact alookup_dictSet_self _ _ _

/-- Every from-channel `c` of the remaining iteration list gets, for its first
to-channel `t`, the two-trim slope over its freshly prepared control, and the
binding survives the remaining passes. -/
theorem fromLoop_writes_first_pair (channels : List Chan)
    (controls : List (Chan × List Row)) (exp : Experiment) (c t : Chan) (s : ℚ)
    (hndch : channels.Nodup)
    (ht : (channels.filter (fun x => x ≠ c)).head? = some t)
    (hs : polyfitSlope
      ((trimPass c t (preparedControl channels controls exp c)).map (fun r => r c))
      ((trimPass c t (preparedControl channels controls exp c)).map (fun r => r t)) =
        .ok s) :
    ∀ (cs : List Chan) (sp sp' : Spillover), cs.Nodup → c ∈ cs →
      fromLoop channels controls exp cs sp = .ok sp' →
      alookup (c, t) sp' = some s := by
  intro cs
  induction cs with
  | nil => intro sp sp' _ hc _; simp at hc
  | cons c0 cs ih =>
    intro sp sp' hnd hc h
    rw [fromLoop] at h
    obtain ⟨res, hres, h2⟩ := except_bind_ok h
    by_cases hc0 : c0 = c
    · rw [hc0] at hres
      have hres2 : alookup (c, t) res.2 = some s :=
        toLoop_first_write c channels (preparedControl channels controls exp c) sp res t s
          hndch ht hs hres
      have hcnotin : c ∉ cs := by
        rw [← hc0]
        exact (List.nodup_cons.mp hnd).1
      rw [fromLoop_preserves channels controls exp cs res.2 sp' h2 (c, t)
        (fun u hu v _ he => hcnotin (by rw [(Prod.mk.injEq _ _ _ _).mp he |>.1]; exact hu))]
      exact hres2
    · have hcin : c ∈ cs := by
        rcases List.mem_cons.mp hc with he | hm
        · exact absurd he.symm hc0
        · exact hm
      exact ih res.2 sp' (List.nodup_cons.mp hnd).2 hcin h2

/-! ### Claim theorems -/

/-- Claim C1 (amended): after a successful `apply`, the `j`-th corrected
column is `experiment.data[channels]` right-multiplied by the pseudoinverse of
the mixing matrix the source builds — the matrix whose entry at row `y`,
column `x` is `spillover[(y, x)]` off the diagonal and `1.0` on it, i.e. the
transpose of the orientation the spec's words describe. -/
theorem apply_corrected_columns
    (pf : List (List ℚ) → List (List ℚ)) (sp : Spillover) (exp out : Experiment)
    (j : Nat) (hok : applyWith pf sp exp = .ok out) (hj : j < (channelsOf sp).length) :
    alookup ((channelsOf sp).get ⟨j, hj⟩) out.data =
      some (newCol ((channelsOf sp).map (colOfExp exp))
        (pf (mixingMatrix sp (channelsOf sp)))
        ((((channelsOf sp).map (colOfExp exp)).headD []).length) j) := by
  obtain ⟨hne, hck, hfm, hbody⟩ := applyWith_ok_inv hok
  subst hbody
  simp only [applyBody]
  have hh := updateDataAux_lookup_mem ((channelsOf sp).map (colOfExp exp))
    (pf (mixingMatrix sp (channelsOf sp)))
    ((((channelsOf sp).map (colOfExp exp)).headD []).length)
    (channelsOf sp) 0 exp.data j hj (channelsOf_nodup sp)
  rw [show (0 : Nat) + j = j from by omega] at hh
  exact hh

/-- Witness for claim C1's amended theorem at the concrete table `c1sp`. -/
theorem apply_corrected_columns_witness :
    applyWith (fun _ => c1P) c1sp c1exp = .ok c1out ∧
    alookup ((channelsOf c1sp).get ⟨1, by decide⟩) c1out.data =
      some (newCol ((channelsOf c1sp).map (colOfExp c1exp)) c1P
        ((((channelsOf c1sp).map (colOfExp c1exp)).headD []).length) 1) :=
  ⟨by decide,
    apply_corrected_columns (fun _ => c1P) c1sp c1exp c1out 1 (by decide) (by decide)⟩

/-- Counterexample to claim C1 as stated: for the table `c1sp` the source's
mixing matrix is `[[1, 1/2], [0, 1]]` (entry `(row, col) = spillover[(row, col)]`),
not the claim's `[[1, 0], [1/2, 1]]`.  Both Moore–Penrose certificates are
checked; `apply`'s `b` column is `[-1/2]` while the claim's formula (the
pseudoinverse `c1Q` of the transposed matrix) predicts `[0]`. -/
theorem apply_spec_matrix_counterexample :
    IsMoorePenrose 2 (mixingMatrix c1sp (channelsOf c1sp)) c1P ∧
    IsMoorePenrose 2 (mixingMatrixSpec c1sp (channelsOf c1sp)) c1Q ∧
    applyWith (fun _ => c1P) c1sp c1exp = .ok c1out ∧
    alookup "b" c1out.data ≠
      some (newCol ((channelsOf c1sp).map (colOfExp c1exp)) c1Q
        ((((channelsOf c1sp).map (colOfExp c1exp)).headD []).length) 1) :=
  ⟨by decide, by decide, by decide, by decide⟩

/-- Claim C5: when every off-diagonal coefficient of the table is zero, the
mixing matrix is the identity, so is its (unique) pseudoinverse, and a
successful `apply` returns the event data numerically unchanged.  (The audit
metadata is still attached; the claim's "numerically equal" refers to the
data values.) -/
theorem apply_zero_offdiag_identity
    (pf : List (List ℚ) → List (List ℚ)) (sp : Spillover) (exp out : Experiment) (N : Nat)
    (hnd : (exp.data.map Prod.fst).Nodup)
    (hrc : ∀ p ∈ exp.data, p.2.length = N)
    (hz : ∀ p ∈ sp, p.1.1 ≠ p.1.2 → p.2 = 0)
    (hMP : IsMoorePenrose (channelsOf sp).length (mixingMatrix sp (channelsOf sp))
      (pf (mixingMatrix sp (channelsOf sp))))
    (hok : applyWith pf sp exp = .ok out) :
    out.data = exp.data := by
  obtain ⟨hne, hck, hfm, hbody⟩ := applyWith_ok_inv hok
  subst hbody
  have hMid := mixing_zero_offdiag sp hz
  rw [hMid] at hMP
  have hPid := moorePenrose_id_unique hMP
  simp only [applyBody]
  rw [hMid, hPid]
  obtain ⟨c0, cr, hchans⟩ := List.exists_cons_of_ne_nil (channelsOf_ne_nil hne)
  have hc0 : hasCol exp c0 = true :=
    hasCol_of_channelsOf hck (by rw [hchans]; exact List.mem_cons_self c0 cr)
  have hN0 : (((channelsOf sp).map (colOfExp exp)).headD []).length = N := by
    rw [hchans, List.map_cons, List.headD_cons]
    exact colOfExp_length_of_wf hrc hc0
  rw [hN0]
  apply updateDataAux_id _ _ N (channelsOf sp) 0 exp.data hnd
  intro k hk
  have hmem : (channelsOf sp).getD k "" ∈ channelsOf sp := getD_mem _ k "" hk
  rw [show (0 : Nat) + k = k from by omega]
  rw [newCol_idL exp (channelsOf sp) N
    (fun c hc => colOfExp_length_of_wf hrc (hasCol_of_channelsOf hck hc)) k hk]
  exact alookup_colOfExp (hasCol_of_channelsOf hck hmem)

/-- Witness for claim C5 at the concrete zero-coefficient table `c5sp`. -/
theorem apply_zero_offdiag_identity_witness :
    ((c5exp.data.map Prod.fst).Nodup ∧
      (∀ p ∈ c5exp.data, p.2.length = 2) ∧
      (∀ p ∈ c5sp, p.1.1 ≠ p.1.2 → p.2 = 0) ∧
      IsMoorePenrose (channelsOf c5sp).length (mixingMatrix c5sp (channelsOf c5sp))
        ((fun _ => idL 2) (mixingMatrix c5sp (channelsOf c5sp))) ∧
      applyWith (fun _ => idL 2) c5sp c5exp = .ok c5out) ∧
    c5out.data = c5exp.data :=
  ⟨⟨by decide, by decide, by decide, by decide, by decide⟩,
    apply_zero_offdiag_identity (fun _ => idL 2) c5sp c5exp c5out 2
      (by decide) (by decide) (by decide) (by decide) (by decide)⟩

/-- Claim C10 (amended): the value stored under any diagonal key `(c, c)` never
affects `apply` — rewriting every diagonal value arbitrarily yields the
identical result, since the matrix diagonal is the constant `1.0` and the
audit metadata skips the diagonal.  (Removing a diagonal key, by contrast, can
change the result: the key contributes its channel to the channel set and
keeps the table nonempty — see the counterexample.) -/
theorem apply_ignores_diagonal_values
    (pf : List (List ℚ) → List (List ℚ)) (f : SpKey → ℚ) (sp : Spillover)
    (exp : Experiment) :
    applyWith pf (setDiagVals f sp) exp = applyWith pf sp exp := by
  by_cases hsp : sp = []
  · subst hsp
    rfl
  · have hsp' : setDiagVals f sp ≠ [] := by
      unfold setDiagVals
      simpa using hsp
    rw [applyWith, applyWith, if_neg hsp', if_neg hsp]
    rw [show checkKeys exp (setDiagVals f sp) (setDiagVals f sp) = checkKeys exp sp sp from
      checkKeys_setDiag f exp sp sp]
    have hbody : applyBody pf (setDiagVals f sp) exp = applyBody pf sp exp := by
      unfold applyBody
      simp only [channelsOf_setDiag, mixingMatrix_setDiag, updateMetaAux_setDiag]
    rw [channelsOf_setDiag, firstMissingPair_setDiag, hbody]

/-- Counterexample to claim C10's "equal to the same table with all diagonal
keys removed": on the one-entry diagonal table `c10sp`, `apply` succeeds and
returns corrected (unchanged) values, while on the table with the diagonal key
removed — the empty table — it raises `CytoflowOpError`.  (`[[1]]` is the
Moore–Penrose pseudoinverse of the `1 × 1` identity mixing matrix, as
certified.) -/
theorem apply_diag_removal_counterexample :
    IsMoorePenrose 1 (mixingMatrix c10sp (channelsOf c10sp)) [[1]] ∧
    applyWith (fun _ => [[1]]) c10sp c10exp = .ok c10out ∧
    applyWith (fun _ => [[1]]) [] c10exp =
      .error (.cytoflowOpError
        "Spillover matrix isn't set. Did you forget to run estimate()?") :=
  ⟨by decide, by decide, by decide⟩

/-- Claim C4 (amended): `apply` raises `CytoflowOpError` exactly when the
table is empty, some key names a channel absent from the experiment's columns,
or some key lacks its mirrored key.  When none of these hold, `apply` returns
a corrected dataset — unless some ordered pair of distinct channels of the
channel set has no key despite the mirror symmetry, in which case the matrix
construction raises an untyped `KeyError` instead. -/
theorem apply_config_error_characterization
    (pf : List (List ℚ) → List (List ℚ)) (sp : Spillover) (exp : Experiment) :
    ((∃ msg, applyWith pf sp exp = .error (.cytoflowOpError msg)) ↔
      (sp = [] ∨ (∃ p ∈ sp, hasCol exp p.1.1 = false ∨ hasCol exp p.1.2 = false) ∨
        (∃ p ∈ sp, alookup (p.1.2, p.1.1) sp = none))) ∧
    (checkKeys exp sp sp = none → sp ≠ [] →
      applyWith pf sp exp =
        (match firstMissingPair sp (channelsOf sp) with
          | some k => .error (.keyError k)
          | none => .ok (applyBody pf sp exp))) := by
  have hbridge : checkKeys exp sp sp = none ↔
      ¬ ((∃ p ∈ sp, hasCol exp p.1.1 = false ∨ hasCol exp p.1.2 = false) ∨
        (∃ p ∈ sp, alookup (p.1.2, p.1.1) sp = none)) := by
    rw [checkKeys_none_iff]
    constructor
    · intro h hbad
      rcases hbad with ⟨p, hp, hb⟩ | ⟨p, hp, hb⟩
      · obtain ⟨hA, hB, _⟩ := h p hp
        rcases hb with hb | hb
        · rw [hA] at hb; simp at hb
        · rw [hB] at hb; simp at hb
      · obtain ⟨_, _, hC⟩ := h p hp
        rw [hb] at hC
        simp at hC
    · intro h p hp
      refine ⟨?_, ?_, ?_⟩
      · by_contra hA
        exact h (Or.inl ⟨p, hp, Or.inl (by simpa using hA)⟩)
      · by_contra hB
        exact h (Or.inl ⟨p, hp, Or.inr (by simpa using hB)⟩)
      · by_contra hC
        refine h (Or.inr ⟨p, hp, ?_⟩)
        simp only [Bool.not_eq_false] at hC
        exact Option.isNone_iff_eq_none.mp hC
  constructor
  · by_cases hsp : sp = []
    · constructor
      · intro _
        exact Or.inl hsp
      · intro _
        exact ⟨"Spillover matrix isn't set. Did you forget to run estimate()?",
          by rw [applyWith, if_pos hsp]⟩
    · cases hck : checkKeys exp sp sp with
      | some m =>
        have hbad : (∃ p ∈ sp, hasCol exp p.1.1 = false ∨ hasCol exp p.1.2 = false) ∨
            (∃ p ∈ sp, alookup (p.1.2, p.1.1) sp = none) := by
          by_contra hnb
          have := hbridge.mpr hnb
          rw [hck] at this
          simp at this
        constructor
        · intro _
          exact Or.inr hbad
        · intro _
          exact ⟨m, by rw [applyWith, if_neg hsp, hck]⟩
      | none =>
        have hgood := hbridge.mp hck
        constructor
        · intro ⟨msg, habs⟩
          rw [applyWith, if_neg hsp, hck] at habs
          cases hfm : firstMissingPair sp (channelsOf sp) with
          | some k => rw [hfm] at habs; simp at habs
          | none => rw [hfm] at habs; simp at habs
        · intro hbad
          rcases hbad with hbad | hbad
          · exact absurd hbad hsp
          · exact absurd hbad hgood
  · intro hck hsp
    rw [applyWith, if_neg hsp, hck]

/-- Witness for claim C4's amended theorem: on `c7sp`/`c7exp` the validation
passes and every pair has a key, so `apply` returns the corrected dataset. -/
theorem apply_config_error_characterization_witness :
    (checkKeys c7exp c7sp c7sp = none ∧ c7sp ≠ []) ∧
    applyWith (fun _ => c7P) c7sp c7exp =
      (match firstMissingPair c7sp (channelsOf c7sp) with
        | some k => .error (.keyError k)
        | none => .ok (applyBody (fun _ => c7P) c7sp c7exp)) :=
  ⟨⟨by decide, by decide⟩,
    (apply_config_error_characterization (fun _ => c7P) c7sp c7exp).2 (by decide) (by decide)⟩

/-- Counterexample to claim C4 as stated: `c4sp` is nonempty, all its channels
are experiment columns, and every key has its mirror, yet `apply` does not
return a corrected dataset — it raises an untyped `KeyError` for the pair
`("b", "c")` of the channel set, which no key covers. -/
theorem apply_keyError_counterexample :
    (¬ (c4sp = [] ∨ (∃ p ∈ c4sp, hasCol c4exp p.1.1 = false ∨ hasCol c4exp p.1.2 = false) ∨
        (∃ p ∈ c4sp, alookup (p.1.2, p.1.1) c4sp = none))) ∧
    applyWith (fun _ => idL 3) c4sp c4exp = .error (.keyError ("b", "c")) :=
  ⟨by decide, by decide⟩

/-- Claim C6: a singular mixing matrix is never turned into a hard failure:
whenever the validation and the key lookups succeed, `apply` returns a dataset
even though the matrix determinant is zero.  (Every value is an exact
rational, hence finite; the pseudoinverse routine is total.) -/
theorem apply_singular_matrix_soft
    (pf : List (List ℚ) → List (List ℚ)) (sp : Spillover) (exp : Experiment)
    (hne : sp ≠ [])
    (hck : checkKeys exp sp sp = none)
    (hfm : firstMissingPair sp (channelsOf sp) = none)
    (hdet : detL (mixingMatrix sp (channelsOf sp)) = 0) :
    ∃ out, applyWith pf sp exp = .ok out := by
  refine ⟨applyBody pf sp exp, ?_⟩
  rw [applyWith, if_neg hne, hck, hfm]

/-- Witness for claim C6 at the spec's own singular example
(`spillover[(a, b)] * spillover[(b, a)] = 1`). -/
theorem apply_singular_matrix_soft_witness :
    (c6sp ≠ [] ∧ checkKeys c6exp c6sp c6sp = none ∧
      firstMissingPair c6sp (channelsOf c6sp) = none ∧
      detL (mixingMatrix c6sp (channelsOf c6sp)) = 0) ∧
    ∃ out, applyWith (fun _ => idL 2) c6sp c6exp = .ok out :=
  ⟨⟨by decide, by decide, by decide, by decide⟩,
    apply_singular_matrix_soft (fun _ => idL 2) c6sp c6exp
      (by decide) (by decide) (by decide) (by decide)⟩

/-- Claim C7: after a successful `apply`, every channel `c` of the table's
channel set carries `linear_bleedthrough` metadata holding exactly the pairs
`(x, spillover[(x, c)])` for the other channels `x` of the set — no more and
no fewer. -/
theorem apply_metadata_audit
    (pf : List (List ℚ) → List (List ℚ)) (sp : Spillover) (exp out : Experiment)
    (c : Chan) (hok : applyWith pf sp exp = .ok out) (hc : c ∈ channelsOf sp) :
    alookup "linear_bleedthrough" (alookupD out.metadata c []) =
      some (.table (((channelsOf sp).filter (fun x => x ≠ c)).map
        (fun x => (x, alookupD sp (x, c) 0)))) := by
  obtain ⟨hne, hck, hfm, hbody⟩ := applyWith_ok_inv hok
  subst hbody
  simp only [applyBody]
  unfold alookupD
  rw [updateMetaAux_lookup_mem sp (channelsOf sp) (channelsOf sp) exp.metadata c
    (channelsOf_nodup sp) hc]
  simp only [Option.getD_some]
  rw [alookup_dictSet_self]
  rfl

/-- Witness for claim C7 at `c7sp`/`c7exp`, channel `a`. -/
theorem apply_metadata_audit_witness :
    (applyWith (fun _ => c7P) c7sp c7exp = .ok c7out ∧ "a" ∈ channelsOf c7sp) ∧
    alookup "linear_bleedthrough" (alookupD c7out.metadata "a" []) =
      some (.table (((channelsOf c7sp).filter (fun x => x ≠ "a")).map
        (fun x => (x, alookupD c7sp (x, "a") 0)))) :=
  ⟨⟨by decide, by decide⟩,
    apply_metadata_audit (fun _ => c7P) c7sp c7exp c7out "a" (by decide) (by decide)⟩

/-- Claim C8 (the frame part expressible in a pure embedding): a successful
`apply` carries over unchanged every data column and every metadata record
whose channel is outside the table's channel set, and every column of the
result keeps the input's event count.  The input experiment itself is never
mutated: the source clones the experiment before writing (`Experiment.clone`
modelled from the spec as an independent copy), and the embedding is pure. -/
theorem apply_frame
    (pf : List (List ℚ) → List (List ℚ)) (sp : Spillover) (exp out : Experiment)
    (N : Nat) (hrc : ∀ p ∈ exp.data, p.2.length = N)
    (hok : applyWith pf sp exp = .ok out) :
    (∀ c : Chan, c ∉ channelsOf sp →
      alookup c out.data = alookup c exp.data ∧
      alookup c out.metadata = alookup c exp.metadata) ∧
    (∀ p ∈ out.data, p.2.length = N) := by
  obtain ⟨hne, hck, hfm, hbody⟩ := applyWith_ok_inv hok
  subst hbody
  constructor
  · intro c hc
    constructor
    · simp only [applyBody]
      exact updateDataAux_lookup_notmem _ _ _ (channelsOf sp) 0 exp.data c hc
    · simp only [applyBody]
      exact updateMetaAux_lookup_notmem sp _ (channelsOf sp) exp.metadata c hc
  · simp only [applyBody]
    intro p hp
    rcases updateDataAux_mem _ _ _ (channelsOf sp) 0 exp.data p hp with hmem | ⟨jj, hjj⟩
    · exact hrc p hmem
    · rw [hjj]
      unfold newCol
      simp only [List.length_map, List.length_range]
      obtain ⟨c0, cr, hchans⟩ := List.exists_cons_of_ne_nil (channelsOf_ne_nil hne)
      have hc0 : hasCol exp c0 = true :=
        hasCol_of_channelsOf hck (by rw [hchans]; exact List.mem_cons_self c0 cr)
      rw [hchans, List.map_cons, List.headD_cons]
      exact colOfExp_length_of_wf hrc hc0

/-- Witness for claim C8 at `c5sp`/`c5exp`: column `c` is outside the channel
set and is carried over unchanged, and all columns keep their two events. -/
theorem apply_frame_witness :
    ((∀ p ∈ c5exp.data, p.2.length = 2) ∧
      applyWith (fun _ => idL 2) c5sp c5exp = .ok c5out ∧ "c" ∉ channelsOf c5sp) ∧
    (alookup "c" c5out.data = alookup "c" c5exp.data ∧
      alookup "c" c5out.metadata = alookup "c" c5exp.metadata) ∧
    (∀ p ∈ c5out.data, p.2.length = 2) := by
  have hh := apply_frame (fun _ => idL 2) c5sp c5exp c5out 2 (by decide) (by decide)
  exact ⟨⟨by decide, by decide, by decide⟩, hh.1 "c" (by decide), hh.2⟩

/-- Claim C2 (amended): the two-trim description of the stored slope is exact
only for the first to-channel processed for each from-channel.  The source
reassigns the trimmed `data` inside the to-channel loop, so each later
to-channel's fit runs on rows already shrunk by all earlier to-channels'
trims (with the from-channel trim re-applied to the shrunk rows).  This
theorem proves the exact part in full generality: for EVERY configured
from-channel `c` — not just the first — and `t` the first to-channel
different from `c` in configuration order, the stored coefficient is the
two-trim least-squares slope over `c`'s fresh baseline-subtracted control.
In a two-channel configuration this covers every stored pair. -/
theorem estimate_first_to_channel_two_trim_slope
    (controls : List (Chan × List Row)) (exp : Experiment) (sp0 sp1 : Spillover)
    (c t : Chan) (s : ℚ)
    (hc : c ∈ controls.map Prod.fst)
    (hnd : (controls.map Prod.fst).Nodup)
    (ht : ((controls.map Prod.fst).filter (fun x => x ≠ c)).head? = some t)
    (hs : twoTrimSlope (controls.map Prod.fst) controls exp c t = .ok s)
    (hok : estimate controls exp sp0 = .ok sp1) :
    alookup (c, t) sp1 = some s := by
  rw [estimate] at hok
  by_cases hlen : (controls.map Prod.fst).length < 2
  · rw [if_pos hlen] at hok
    simp at hok
  · rw [if_neg hlen] at hok
    exact fromLoop_writes_first_pair (controls.map Prod.fst) controls exp c t s hnd ht hs
      (controls.map Prod.fst) sp0 sp1 hnd hc hok

/-- Witness for claim C2's amended theorem at the SECOND from-channel `B` of
the two-channel configuration `c9controls` (first to-channel `A`): the stored
`("B", "A")` coefficient is the two-trim slope `1/2`. -/
theorem estimate_first_to_channel_two_trim_slope_witness :
    ("B" ∈ c9controls.map Prod.fst ∧
      (c9controls.map Prod.fst).Nodup ∧
      ((c9controls.map Prod.fst).filter (fun x => x ≠ "B")).head? = some "A" ∧
      twoTrimSlope (c9controls.map Prod.fst) c9controls c9exp "B" "A" = .ok (1 / 2) ∧
      estimate c9controls c9exp [] = .ok c2wout) ∧
    alookup ("B", "A") c2wout = some (1 / 2) :=
  ⟨⟨by decide, by decide, by decide, by decide, by decide⟩,
    estimate_first_to_channel_two_trim_slope c9controls c9exp [] c2wout "B" "A" (1 / 2)
      (by decide) (by decide) (by decide) (by decide) (by decide)⟩

/-- Counterexample to claim C2 as stated: in the three-channel configuration
`c2controls`, the coefficient `estimate` stores for `("A", "C")` is `-1`,
computed on rows already trimmed during the `("A", "B")` iteration, while the
slope over the rows surviving exactly the two trims on the fresh control — the
quantity the claim describes — is `4/5`. -/
theorem estimate_accumulated_trims_counterexample :
    estimate c2controls c2exp [] = .ok c2out ∧
    alookup ("A", "C") c2out = some (-1) ∧
    twoTrimSlope (c2controls.map Prod.fst) c2controls c2exp "A" "C" = .ok (4 / 5) ∧
    (-1 : ℚ) ≠ 4 / 5 :=
  ⟨by decide, by decide, by decide, by decide⟩

/-- Claim C3 (the code's actual behaviour at the failing input): when the
from-channel trim leaves zero surviving rows — here because the from-channel
column of the control is the constant `1.0`, so the strict
`(1.05 × min, 0.95 × max)` window is empty — the pandas reductions of the
emptied to-channel column return `NaN` rather than raising, the filters keep
nothing, and `estimate` then crashes inside `np.polyfit` with the untyped
`TypeError` "expected non-empty vector for x".  No recoverable
`EstimationError` naming the channel pair is raised; no such error type
exists in the code. -/
theorem estimate_empty_trim_polyfit_typeError :
    estimate c3controls c3exp [] = .error .typeErrorPolyfitEmpty := by decide

/-- Claim C9: `estimate` never clears the spillover table: any key whose two
channels are not both among the configured control channels keeps its binding
and value across a successful call, so repeated calls with different control
sets accumulate coefficients. -/
theorem estimate_preserves_foreign_keys
    (controls : List (Chan × List Row)) (exp : Experiment) (sp0 sp1 : Spillover)
    (k : SpKey)
    (hok : estimate controls exp sp0 = .ok sp1)
    (hk : ¬ (k.1 ∈ controls.map Prod.fst ∧ k.2 ∈ controls.map Prod.fst)) :
    alookup k sp1 = alookup k sp0 := by
  rw [estimate] at hok
  by_cases hlen : (controls.map Prod.fst).length < 2
  · rw [if_pos hlen] at hok
    simp at hok
  · rw [if_neg hlen] at hok
    refine fromLoop_preserves _ controls exp _ sp0 sp1 hok k ?_
    intro c hc u hu he
    apply hk
    rw [he]
    exact ⟨hc, hu⟩

/-- Witness for claim C9: the stale key `("X", "Y")` survives `estimate` on
the control set `{A, B}` with its value `7`. -/
theorem estimate_preserves_foreign_keys_witness :
    (estimate c9controls c9exp c9sp = .ok c9out ∧
      ¬ (("X", "Y").1 ∈ c9controls.map Prod.fst ∧
         ("X", "Y").2 ∈ c9controls.map Prod.fst)) ∧
    alookup ("X", "Y") c9out = alookup ("X", "Y") c9sp :=
  ⟨⟨by decide, by decide⟩,
    estimate_preserves_foreign_keys c9controls c9exp c9sp c9out ("X", "Y")
      (by decide) (by decide)⟩

end FlowTools
